import Mathlib

/-!
# VolSwap `MultiverseMarket` — shallow embedding and verification

This file embeds the Solidity contract `MultiverseMarket`
(`contracts/src/MultiverseMarket.sol`, seed-exclusion variant) in Lean 4 and
settles the frozen claims about it.

Modelling conventions:
* `uint256` values are `Nat`, `int256` values are `Int`.  Solidity 0.8 checked
  arithmetic reverts on overflow/underflow; on the inputs handled by the
  theorems below no checked arithmetic overflows, so plain `Nat`/`Int`
  arithmetic agrees with the EVM semantics.  Solidity `/` on signed integers
  truncates toward zero, which is `Int.tdiv`.  An explicit conversion
  `int256(x)` is *unchecked* in Solidity 0.8 and wraps two's-complement;
  it is modelled by `toInt256`.
* Reverts are modelled with `Except`: an `Except.error` result is a revert,
  i.e. the pre-state is kept unchanged (all-or-nothing transactions).
* External reads (`oracle.getRealisedVol()`, `oracle.getEntropy()`,
  `block.timestamp`, `msg.sender`, `msg.value`) are passed to each operation
  as explicit arguments.
-/

namespace VolSwap

/-- Fixed-point scale: 1e18, one scale unit is 1.0. -/
def SCALE : Nat := 1000000000000000000

/-- The `MAX_ENTROPY` constant of the contract: ln 2 scaled by 1e18. -/
def MAX_ENTROPY : Nat := 693147180559945309

/-- The `MIN_FEE` constant: 0.5 % scaled by 1e18. -/
def MIN_FEE : Nat := 5000000000000000

/-- The `MAX_FEE` constant: 5 % scaled by 1e18. -/
def MAX_FEE : Nat := 50000000000000000

/-- The `LN2` constant used inside `_ln`. -/
def LN2 : Nat := 693147180559945309

/-- Signed fixed-point scale as an integer. -/
def SI : Int := 1000000000000000000

/--
The 6-term Taylor sum `1 + x + x²/2! + … + x⁶/6!` of `_expScaled`, evaluated
in fixed point with each term derived from the previous one by
`term = term·x / (k·1e18)` (signed truncating division, as in the contract).
-/
def expTaylor (x : Int) : Int :=
  let t1 := x
  let t2 := Int.tdiv (t1 * x) (2 * SI)
  let t3 := Int.tdiv (t2 * x) (3 * SI)
  let t4 := Int.tdiv (t3 * x) (4 * SI)
  let t5 := Int.tdiv (t4 * x) (5 * SI)
  let t6 := Int.tdiv (t5 * x) (6 * SI)
  SI + t1 + t2 + t3 + t4 + t5 + t6

/--
Model of `_expScaled(q)`: `exp(q/b)` scaled by 1e18, from the contract.
The exponent `q·1e18/b` (signed division truncating toward zero, `Int.tdiv`)
is clamped to `20e18` above; below `-20e18` the function returns `1`.  The
6-term Taylor expansion `expTaylor` is evaluated on the clamped exponent; a
non-positive result is clamped to `1`.
-/
def expScaled (b : Nat) (q : Int) : Nat :=
  let exponent0 : Int := Int.tdiv (q * SI) (Int.ofNat b)
  let exponent : Int := if exponent0 > 20 * SI then 20 * SI else exponent0
  if exponent < -(20 * SI) then 1
  else if expTaylor exponent > 0 then (expTaylor exponent).toNat else 1

/--
The halving loop of `_ln`: divide by 2 while `x ≥ 2e18`, accumulating `LN2`.
Structural fuel makes the definition kernel-computable; `2^256` steps cover
every `uint256` input (the loop runs at most 196 times on those).
-/
def lnHalve : Nat → Nat → Nat × Nat
  | 0, x => (x, 0)
  | fuel + 1, x =>
    if 2 * SCALE ≤ x then
      let p := lnHalve fuel (x / 2)
      (p.1, p.2 + LN2)
    else (x, 0)

/-- Taylor part of `_ln`: 4-term expansion of `ln(1+y)` on `y = x - 1e18`. -/
def lnTaylor (y : Nat) : Nat :=
  let yPow1 := y
  let r1 := yPow1
  let yPow2 := yPow1 * y / SCALE
  let r2 := r1 - yPow2 / 2
  let yPow3 := yPow2 * y / SCALE
  let r3 := r2 + yPow3 / 3
  let yPow4 := yPow3 * y / SCALE
  r3 - yPow4 / 4

/--
Model of `_ln(x)`: natural log scaled by 1e18, from the contract.  Returns `0` for
`x ≤ 1e18`; otherwise halves into `[1e18, 2e18)` accumulating `LN2` and
applies the 4-term Taylor expansion to the remainder.
-/
def lnScaled (x : Nat) : Nat :=
  if x ≤ SCALE then 0
  else
    let p := lnHalve 256 x
    p.2 + lnTaylor (p.1 - SCALE)

/-- Model of `_cost(qH, qL)`: LMSR cost `b · ln(exp(qH/b) + exp(qL/b))`, fixed point. -/
def cost (b : Nat) (qH qL : Int) : Nat :=
  b * lnScaled (expScaled b qH + expScaled b qL) / SCALE

/-- Model of `dynamicFee()` with the oracle entropy passed explicitly. -/
def dynamicFee (entropy : Nat) : Nat :=
  if MAX_ENTROPY ≤ entropy then MAX_FEE
  else MIN_FEE + (MAX_FEE - MIN_FEE) * entropy / MAX_ENTROPY

/-- Body of the `priceHighVol` view on explicit LMSR quantities. -/
def priceHigh (b : Nat) (qH qL : Int) : Nat :=
  expScaled b qH * SCALE / (expScaled b qH + expScaled b qL)

/-- Body of the `priceLowVol` view on explicit LMSR quantities. -/
def priceLow (b : Nat) (qH qL : Int) : Nat :=
  expScaled b qL * SCALE / (expScaled b qH + expScaled b qL)

/-- The `Round` struct of the contract. -/
structure Round where
  snapshotVol : Nat
  tradingEnd : Nat
  resolutionTime : Nat
  totalCollateral : Nat
  totalHighTokens : Nat
  totalLowTokens : Nat
  qHigh : Int
  qLow : Int
  resolved : Bool
  highVolWon : Bool
  resolvedVol : Nat
  seedCollateral : Nat
  seedHighTokens : Nat
  seedLowTokens : Nat
deriving Repr, DecidableEq

/-- The all-zero `Round`, the default value of the `rounds` mapping. -/
def defaultRound : Round :=
  { snapshotVol := 0, tradingEnd := 0, resolutionTime := 0
    totalCollateral := 0, totalHighTokens := 0, totalLowTokens := 0
    qHigh := 0, qLow := 0, resolved := false, highVolWon := false
    resolvedVol := 0, seedCollateral := 0, seedHighTokens := 0
    seedLowTokens := 0 }

/--
Contract storage plus the contract's ETH balance.  Addresses are `Nat`.
`rounds` is the storage mapping as a total function (absent keys hold
`defaultRound`, as in the EVM).
-/
structure MarketState where
  operator : Nat
  b : Nat
  currentRoundId : Nat
  rounds : Nat → Round
  highVolBalance : Nat → Nat → Nat
  lowVolBalance : Nat → Nat → Nat
  tradingDuration : Nat
  resolutionDelay : Nat
  seedAmount : Nat
  seedReserve : Nat
  balance : Nat

/-- The contract errors. -/
inductive Err where
  | Unauthorized
  | RoundAlreadyResolved
  | RoundNotResolved
  | TradingClosed
  | TooEarlyToResolve
  | InsufficientPayment
  | InsufficientBalance
  | TransferFailed
  | InvalidRound
  | CurrentRoundNotResolved
  | InsufficientSeedReserve
deriving Repr, DecidableEq

/--
Constructor state: `operator = msg.sender`, `b = _b`, plus the declared
initializers (`tradingDuration = 1 hours`, `resolutionDelay = 24 hours`,
`seedAmount = 0.5 ether`); everything else zero.
-/
def initState (deployer b : Nat) : MarketState :=
  { operator := deployer, b := b, currentRoundId := 0
    rounds := fun _ => defaultRound
    highVolBalance := fun _ _ => 0, lowVolBalance := fun _ _ => 0
    tradingDuration := 3600, resolutionDelay := 86400
    seedAmount := 500000000000000000, seedReserve := 0, balance := 0 }

/--
The Solidity 0.8 explicit conversion `int256(a)` of a `uint256`: explicit
conversions are unchecked, so the low 256 bits are reinterpreted as a
two's-complement signed integer (values of `2^255` and above wrap to
negative numbers).
-/
def toInt256 (a : Nat) : Int :=
  if a % 2 ^ 256 < 2 ^ 255 then ((a % 2 ^ 256 : Nat) : Int)
  else ((a % 2 ^ 256 : Nat) : Int) - 2 ^ 256

/--
The `totalSeedCost = highCost + lowCost` computed by `_seedRound`: the
clamped cost delta of buying `seedAmount` HIGH tokens from the round's
quantities, plus the clamped delta of then buying `seedAmount` LOW tokens.
-/
def seedRoundCost (b seedAmt : Nat) (r : Round) : Nat :=
  let costBefore := cost b r.qHigh r.qLow
  let seedInt : Int := toInt256 seedAmt
  let qH := r.qHigh + seedInt
  let costAfterHigh := cost b qH r.qLow
  let highCost := if costBefore < costAfterHigh then costAfterHigh - costBefore else 0
  let qL := r.qLow + seedInt
  let costAfterBoth := cost b qH qL
  let lowCost := if costAfterHigh < costAfterBoth then costAfterBoth - costAfterHigh else 0
  highCost + lowCost

/--
Model of `_seedRound`, as a pure function of the liquidity parameter, the configured
seed amount, the seed reserve and the round being seeded; returns the updated
round and reserve.  In the insufficient-reserve branch the contract increments
and then exactly restores `qHigh`/`qLow`, so that branch returns the inputs
unchanged; `seedRoundCost` is the `totalSeedCost` of the function body.
-/
def seedRound (b seedAmt reserve : Nat) (r : Round) : Round × Nat :=
  if seedAmt = 0 then (r, reserve)
  else
    let totalSeedCost := seedRoundCost b seedAmt r
    if reserve < totalSeedCost then (r, reserve)
    else
      ({ r with
          qHigh := r.qHigh + toInt256 seedAmt
          qLow := r.qLow + toInt256 seedAmt
          totalHighTokens := r.totalHighTokens + seedAmt
          totalLowTokens := r.totalLowTokens + seedAmt
          totalCollateral := r.totalCollateral + totalSeedCost
          seedHighTokens := seedAmt
          seedLowTokens := seedAmt
          seedCollateral := totalSeedCost },
        reserve - totalSeedCost)

/-- A fresh round as written by `openNewRound`/`startNewRound`. -/
def freshRound (s : MarketState) (now vol : Nat) : Round :=
  { defaultRound with
      snapshotVol := vol
      tradingEnd := now + s.tradingDuration
      resolutionTime := now + s.resolutionDelay }

/-- Shared tail of the two round-opening functions: bump the id, write the
fresh round, then seed it. -/
def createRound (s : MarketState) (now vol : Nat) : MarketState :=
  let newId := s.currentRoundId + 1
  let fresh := freshRound s now vol
  let seeded := seedRound s.b s.seedAmount s.seedReserve fresh
  { s with
      currentRoundId := newId
      rounds := fun id => if id = newId then seeded.1 else s.rounds id
      seedReserve := seeded.2 }

/-- Model of `openNewRound()`: operator-only; no check that the previous round is
resolved. -/
def openNewRound (caller now vol : Nat) (s : MarketState) :
    Except Err MarketState :=
  if caller ≠ s.operator then .error .Unauthorized
  else .ok (createRound s now vol)

/-- Model of `startNewRound()`: callable by anyone, but only once the current round
(if any) is resolved. -/
def startNewRound (now vol : Nat) (s : MarketState) :
    Except Err MarketState :=
  if 0 < s.currentRoundId ∧ (s.rounds s.currentRoundId).resolved = false then
    .error .CurrentRoundNotResolved
  else .ok (createRound s now vol)

/-- The pre-fee charge of a purchase: the LMSR cost delta, clamped at zero
(`costAfter > costBefore ? costAfter - costBefore : 0` in the contract). -/
def rawCharge (b : Nat) (qH qL qH' qL' : Int) : Nat :=
  if cost b qH qL < cost b qH' qL' then cost b qH' qL' - cost b qH qL else 0

/-- Model of `buyOutcome(roundId, isHighVol, amount)` with `msg.value = value`,
`msg.sender = caller`, `block.timestamp = now` and the oracle entropy given;
returns the new state and the `totalCost` charged. -/
def buyOutcome (caller now roundId : Nat) (isHighVol : Bool)
    (amount value entropy : Nat) (s : MarketState) :
    Except Err (MarketState × Nat) :=
  let r := s.rounds roundId
  if r.snapshotVol = 0 then .error .InvalidRound
  else if r.resolved then .error .RoundAlreadyResolved
  else if r.tradingEnd < now then .error .TradingClosed
  else
    let qH := if isHighVol then r.qHigh + toInt256 amount else r.qHigh
    let qL := if isHighVol then r.qLow else r.qLow + toInt256 amount
    let rawCost := rawCharge s.b r.qHigh r.qLow qH qL
    let fee := rawCost * dynamicFee entropy / SCALE
    let totalCost := rawCost + fee
    if value < totalCost then .error .InsufficientPayment
    else
      let r' := { r with
          qHigh := qH, qLow := qL
          totalHighTokens :=
            if isHighVol then r.totalHighTokens + amount else r.totalHighTokens
          totalLowTokens :=
            if isHighVol then r.totalLowTokens else r.totalLowTokens + amount
          totalCollateral := r.totalCollateral + totalCost }
      .ok
        ({ s with
            rounds := fun id => if id = roundId then r' else s.rounds id
            highVolBalance := fun id a =>
              if id = roundId ∧ a = caller ∧ isHighVol then
                s.highVolBalance id a + amount
              else s.highVolBalance id a
            lowVolBalance := fun id a =>
              if id = roundId ∧ a = caller ∧ isHighVol = false then
                s.lowVolBalance id a + amount
              else s.lowVolBalance id a
            balance := s.balance + totalCost },
          totalCost)

/-- Model of `resolveRound(roundId)` with the oracle reading `vol` passed in. -/
def resolveRound (now roundId vol : Nat) (s : MarketState) :
    Except Err MarketState :=
  let r := s.rounds roundId
  if r.snapshotVol = 0 then .error .InvalidRound
  else if r.resolved then .error .RoundAlreadyResolved
  else if now < r.resolutionTime then .error .TooEarlyToResolve
  else
    let r' := { r with
        highVolWon := decide (r.snapshotVol < vol)
        resolved := true
        resolvedVol := vol }
    .ok { s with rounds := fun id => if id = roundId then r' else s.rounds id }

/-- Model of `claimPayout(roundId)`; returns the new state and the payout paid out. -/
def claimPayout (caller roundId : Nat) (s : MarketState) :
    Except Err (MarketState × Nat) :=
  let r := s.rounds roundId
  if r.resolved = false then .error .RoundNotResolved
  else
    let userTokens :=
      if r.highVolWon then s.highVolBalance roundId caller
      else s.lowVolBalance roundId caller
    let totalWinning := if r.highVolWon then r.totalHighTokens else r.totalLowTokens
    let seedWinning := if r.highVolWon then r.seedHighTokens else r.seedLowTokens
    if userTokens = 0 then .error .InsufficientBalance
    else
      let userPool := r.totalCollateral - r.seedCollateral
      let userWinning := totalWinning - seedWinning
      if userWinning = 0 then .error .InsufficientBalance
      else
        let payout0 := userTokens * userPool / userWinning
        let payout := if s.balance < payout0 then s.balance else payout0
        let reserve' :=
          if 0 < r.seedCollateral then s.seedReserve + r.seedCollateral
          else s.seedReserve
        let r' := { r with seedCollateral :=
          if 0 < r.seedCollateral then 0 else r.seedCollateral }
        .ok
          ({ s with
              rounds := fun id => if id = roundId then r' else s.rounds id
              highVolBalance := fun id a =>
                if id = roundId ∧ a = caller ∧ r.highVolWon then 0
                else s.highVolBalance id a
              lowVolBalance := fun id a =>
                if id = roundId ∧ a = caller ∧ r.highVolWon = false then 0
                else s.lowVolBalance id a
              seedReserve := reserve'
              balance := s.balance - payout },
            payout)

/-- Model of `setTradingDuration` (operator-only). -/
def setTradingDuration (caller d : Nat) (s : MarketState) :
    Except Err MarketState :=
  if caller ≠ s.operator then .error .Unauthorized
  else .ok { s with tradingDuration := d }

/-- Model of `setResolutionDelay` (operator-only). -/
def setResolutionDelay (caller d : Nat) (s : MarketState) :
    Except Err MarketState :=
  if caller ≠ s.operator then .error .Unauthorized
  else .ok { s with resolutionDelay := d }

/-- Model of `setSeedAmount` (operator-only). -/
def setSeedAmount (caller a : Nat) (s : MarketState) :
    Except Err MarketState :=
  if caller ≠ s.operator then .error .Unauthorized
  else .ok { s with seedAmount := a }

/-- Model of `transferOperator` (operator-only). -/
def transferOperator (caller newOp : Nat) (s : MarketState) :
    Except Err MarketState :=
  if caller ≠ s.operator then .error .Unauthorized
  else .ok { s with operator := newOp }

/-- Model of `depositSeedReserve` (operator-only, payable). -/
def depositSeedReserve (caller value : Nat) (s : MarketState) :
    Except Err MarketState :=
  if caller ≠ s.operator then .error .Unauthorized
  else .ok { s with seedReserve := s.seedReserve + value
                    balance := s.balance + value }

/-- Model of `withdrawSeedReserve` (operator-only); the outbound transfer fails when
the contract balance cannot cover it. -/
def withdrawSeedReserve (caller amount : Nat) (s : MarketState) :
    Except Err MarketState :=
  if caller ≠ s.operator then .error .Unauthorized
  else if s.seedReserve < amount then .error .InsufficientSeedReserve
  else if s.balance < amount then .error .TransferFailed
  else .ok { s with seedReserve := s.seedReserve - amount
                    balance := s.balance - amount }

/-- The `receive()` function: accept ETH. -/
def receiveEth (value : Nat) (s : MarketState) : Except Err MarketState :=
  .ok { s with balance := s.balance + value }

/-- One public operation of the contract, with its environment inputs. -/
inductive Op where
  | openNewRound (caller now vol : Nat)
  | startNewRound (now vol : Nat)
  | buyOutcome (caller now roundId : Nat) (isHighVol : Bool)
      (amount value entropy : Nat)
  | resolveRound (now roundId vol : Nat)
  | claimPayout (caller roundId : Nat)
  | setTradingDuration (caller d : Nat)
  | setResolutionDelay (caller d : Nat)
  | setSeedAmount (caller a : Nat)
  | transferOperator (caller newOp : Nat)
  | depositSeedReserve (caller value : Nat)
  | withdrawSeedReserve (caller amount : Nat)
  | receiveEth (value : Nat)

/-- Execute one public operation (return values dropped). -/
def step (op : Op) (s : MarketState) : Except Err MarketState :=
  match op with
  | .openNewRound caller now vol => openNewRound caller now vol s
  | .startNewRound now vol => startNewRound now vol s
  | .buyOutcome caller now roundId isHigh amount value entropy =>
      (buyOutcome caller now roundId isHigh amount value entropy s).map (·.1)
  | .resolveRound now roundId vol => resolveRound now roundId vol s
  | .claimPayout caller roundId => (claimPayout caller roundId s).map (·.1)
  | .setTradingDuration caller d => setTradingDuration caller d s
  | .setResolutionDelay caller d => setResolutionDelay caller d s
  | .setSeedAmount caller a => setSeedAmount caller a s
  | .transferOperator caller newOp => transferOperator caller newOp s
  | .depositSeedReserve caller value => depositSeedReserve caller value s
  | .withdrawSeedReserve caller amount => withdrawSeedReserve caller amount s
  | .receiveEth value => receiveEth value s

/-- States reachable from deployment by successful public operations. -/
inductive Reachable : MarketState → Prop where
  | init (deployer b : Nat) : Reachable (initState deployer b)
  | step {s s' : MarketState} (op : Op) :
      Reachable s → step op s = .ok s' → Reachable s'

/-! ## Basic facts about the fixed-point helpers -/

/-- The scaled exponential always returns at least `1`: the low clamp
returns `1` and a non-positive Taylor result is replaced by `1`. -/
theorem one_le_expScaled (b : Nat) (q : Int) : 1 ≤ expScaled b q := by
  simp only [expScaled]
  split <;> split <;> (try split) <;> omega

/-- Two complementary floored shares of `s` over the same denominator sum to
`s` or to `s - 1`. -/
theorem price_sum_bounds (a c s : Nat) (hpos : 0 < a + c) :
    a * s / (a + c) + c * s / (a + c) ≤ s ∧
    s ≤ a * s / (a + c) + c * s / (a + c) + 1 := by
  have h := Nat.add_div (a := a * s) (b := c * s) hpos
  have h2 : (a * s + c * s) / (a + c) = s := by
    rw [← Nat.add_mul, Nat.mul_div_cancel_left s hpos]
  rw [h2] at h
  rcases le_or_lt (a + c) (a * s % (a + c) + c * s % (a + c)) with hle | hlt
  · rw [if_pos hle] at h
    constructor <;> omega
  · rw [if_neg (Nat.not_le_of_lt hlt)] at h
    constructor <;> omega

/-- A single share is at most `s`. -/
theorem price_le_scale (a c s : Nat) (hpos : 0 < a + c) :
    a * s / (a + c) ≤ s := by
  calc a * s / (a + c) ≤ (a + c) * s / (a + c) :=
        Nat.div_le_div_right (Nat.mul_le_mul_right s (Nat.le_add_right a c))
  _ = s := Nat.mul_div_cancel_left s hpos

/-- C10: for every input quantity and every `b > 0` the scaled exponential is
at least `1` (the low clamp returns `1` and non-positive Taylor results are
replaced by `1`), so the denominator `expHigh + expLow` of both price views
is at least `2` and in particular never zero — including for unseeded rounds
at `(0, 0)`. -/
theorem expScaled_ge_one_denominator_pos (b : Nat) (qH qL : Int)
    (hb : 0 < b) :
    1 ≤ expScaled b qH ∧ 1 ≤ expScaled b qL ∧
    2 ≤ expScaled b qH + expScaled b qL ∧
    0 < expScaled b qH + expScaled b qL := by
  have h1 := one_le_expScaled b qH
  have h2 := one_le_expScaled b qL
  exact ⟨h1, h2, by omega, by omega⟩

/-- Witness for `expScaled_ge_one_denominator_pos` at `b = 1`,
`(qHigh, qLow) = (0, 0)`. -/
theorem expScaled_ge_one_denominator_pos_witness :
    1 ≤ expScaled 1 0 ∧ 1 ≤ expScaled 1 0 ∧
    2 ≤ expScaled 1 0 + expScaled 1 0 ∧
    0 < expScaled 1 0 + expScaled 1 0 :=
  expScaled_ge_one_denominator_pos 1 0 0 (by decide)

/-- C3: for every pair of LMSR quantities and every liquidity parameter
`b > 0`, the Up price and the Down price (the bodies of `priceHighVol` and
`priceLowVol`) lie in `[0, S]` and their sum differs from `S = 10^18` by at
most one integer-division rounding unit. -/
theorem prices_bounded_and_complementary (b : Nat) (qH qL : Int)
    (hb : 0 < b) :
    priceHigh b qH qL ≤ SCALE ∧ priceLow b qH qL ≤ SCALE ∧
    priceHigh b qH qL + priceLow b qH qL ≤ SCALE ∧
    SCALE ≤ priceHigh b qH qL + priceLow b qH qL + 1 := by
  have h1 := one_le_expScaled b qH
  have h2 := one_le_expScaled b qL
  unfold priceHigh priceLow
  have hpos : 0 < expScaled b qH + expScaled b qL := by omega
  have hsum := price_sum_bounds (expScaled b qH) (expScaled b qL) SCALE hpos
  refine ⟨price_le_scale _ _ _ hpos, ?_, hsum.1, hsum.2⟩
  have := price_le_scale (expScaled b qL) (expScaled b qH) SCALE (by omega)
  rwa [Nat.add_comm (expScaled b qL)] at this

/-- Witness for `prices_bounded_and_complementary` at `b = 2`,
`(qHigh, qLow) = (3, -1)`. -/
theorem prices_bounded_and_complementary_witness :
    priceHigh 2 3 (-1) ≤ SCALE ∧ priceLow 2 3 (-1) ≤ SCALE ∧
    priceHigh 2 3 (-1) + priceLow 2 3 (-1) ≤ SCALE ∧
    SCALE ≤ priceHigh 2 3 (-1) + priceLow 2 3 (-1) + 1 :=
  prices_bounded_and_complementary 2 3 (-1) (by decide)

/-- The fee never exceeds `MAX_FEE`. -/
theorem dynamicFee_le_max (e : Nat) : dynamicFee e ≤ MAX_FEE := by
  unfold dynamicFee
  split
  · exact Nat.le_refl _
  · have hstep : (MAX_FEE - MIN_FEE) * e / MAX_ENTROPY ≤ MAX_FEE - MIN_FEE := by
      calc (MAX_FEE - MIN_FEE) * e / MAX_ENTROPY
          ≤ (MAX_FEE - MIN_FEE) * MAX_ENTROPY / MAX_ENTROPY := by
            apply Nat.div_le_div_right
            exact Nat.mul_le_mul_left _ (by omega)
      _ = MAX_FEE - MIN_FEE := Nat.mul_div_cancel _ (by decide)
    unfold MIN_FEE MAX_FEE at *
    omega

/-- C9: `dynamicFee` equals `MIN_FEE` (0.5 %) at entropy `0`, is the linear
interpolation `MIN_FEE + (MAX_FEE - MIN_FEE)·entropy / MAX_ENTROPY` below
`MAX_ENTROPY = ln 2`, saturates at `MAX_FEE` (5 %) from `MAX_ENTROPY` on, is
monotonically non-decreasing in entropy and always lies in
`[MIN_FEE, MAX_FEE]`. -/
theorem dynamicFee_spec (e e' : Nat) (h : e ≤ e') :
    dynamicFee 0 = MIN_FEE ∧
    (e < MAX_ENTROPY →
      dynamicFee e = MIN_FEE + (MAX_FEE - MIN_FEE) * e / MAX_ENTROPY) ∧
    (MAX_ENTROPY ≤ e → dynamicFee e = MAX_FEE) ∧
    dynamicFee e ≤ dynamicFee e' ∧
    MIN_FEE ≤ dynamicFee e ∧ dynamicFee e ≤ MAX_FEE := by
  refine ⟨by decide, ?_, ?_, ?_, ?_, dynamicFee_le_max e⟩
  · intro hlt
    unfold dynamicFee
    rw [if_neg (by omega)]
  · intro hge
    unfold dynamicFee
    rw [if_pos hge]
  · unfold dynamicFee
    rcases le_or_lt MAX_ENTROPY e with he | he
    · rw [if_pos he, if_pos (Nat.le_trans he h)]
    · rw [if_neg (by omega)]
      rcases le_or_lt MAX_ENTROPY e' with he' | he'
      · rw [if_pos he']
        have := dynamicFee_le_max e
        unfold dynamicFee at this
        rw [if_neg (by omega)] at this
        exact this
      · rw [if_neg (by omega)]
        exact Nat.add_le_add_left
          (Nat.div_le_div_right (Nat.mul_le_mul_left _ h)) _
  · unfold dynamicFee
    split
    · decide
    · exact Nat.le_add_right _ _

/-- Witness for `dynamicFee_spec` at the pair `(0, MAX_ENTROPY)`. -/
theorem dynamicFee_spec_witness :
    dynamicFee 0 = MIN_FEE ∧
    (0 < MAX_ENTROPY →
      dynamicFee 0 = MIN_FEE + (MAX_FEE - MIN_FEE) * 0 / MAX_ENTROPY) ∧
    (MAX_ENTROPY ≤ 0 → dynamicFee 0 = MAX_FEE) ∧
    dynamicFee 0 ≤ dynamicFee MAX_ENTROPY ∧
    MIN_FEE ≤ dynamicFee 0 ∧ dynamicFee 0 ≤ MAX_FEE :=
  dynamicFee_spec 0 MAX_ENTROPY (by decide)

/-- The function `_seedRound` either skips (returning round and reserve unchanged) or,
when `seedAmount` is nonzero and the reserve covers the computed total seed
cost, buys the seed amount on both sides, records the seed fields and deducts
the cost from the reserve. -/
theorem seedRound_cases (b seedAmt reserve : Nat) (r : Round) :
    seedRound b seedAmt reserve r = (r, reserve) ∨
    (seedRoundCost b seedAmt r ≤ reserve ∧ seedAmt ≠ 0 ∧
      seedRound b seedAmt reserve r =
        ({ r with
            qHigh := r.qHigh + toInt256 seedAmt
            qLow := r.qLow + toInt256 seedAmt
            totalHighTokens := r.totalHighTokens + seedAmt
            totalLowTokens := r.totalLowTokens + seedAmt
            totalCollateral := r.totalCollateral + seedRoundCost b seedAmt r
            seedHighTokens := seedAmt
            seedLowTokens := seedAmt
            seedCollateral := seedRoundCost b seedAmt r },
          reserve - seedRoundCost b seedAmt r)) := by
  rw [seedRound]
  by_cases h0 : seedAmt = 0
  · rw [if_pos h0]
    exact .inl rfl
  · rw [if_neg h0]
    show (if reserve < seedRoundCost b seedAmt r then (r, reserve) else _) =
        (r, reserve) ∨ _
    by_cases h1 : reserve < seedRoundCost b seedAmt r
    · rw [if_pos h1]
      exact .inl rfl
    · rw [if_neg h1]
      exact .inr ⟨Nat.le_of_not_lt h1, h0, rfl⟩

/-- C7: whenever the computed total seed cost exceeds the reserve, seeding is
skipped without error and the round (every field, the LMSR quantities having
been incremented and then exactly restored) and the reserve are returned
unchanged. -/
theorem seedRound_insufficient_reserve_skips (b seedAmt reserve : Nat)
    (r : Round) (h : reserve < seedRoundCost b seedAmt r) :
    seedRound b seedAmt reserve r = (r, reserve) := by
  rcases seedRound_cases b seedAmt reserve r with hc | ⟨hle, _, _⟩
  · exact hc
  · omega

/-- Witness for `seedRound_insufficient_reserve_skips`: seeding a fresh round
with `b = 10^18`, `seedAmount = 0.5·10^18` costs more than an empty reserve,
so everything stays unchanged. -/
theorem seedRound_insufficient_reserve_skips_witness :
    0 < seedRoundCost 1000000000000000000 500000000000000000 defaultRound ∧
    seedRound 1000000000000000000 500000000000000000 0 defaultRound =
      (defaultRound, 0) :=
  ⟨by decide,
   seedRound_insufficient_reserve_skips 1000000000000000000
     500000000000000000 0 defaultRound (by decide)⟩

/-- Seeding a round whose LMSR quantities are symmetric keeps them
symmetric: both the seeded branch (`+seedAmount` on each side) and the
skip branch move the two quantities identically. -/
theorem seedRound_preserves_symmetry (b seedAmt reserve : Nat) (r : Round)
    (h : r.qHigh = r.qLow) :
    (seedRound b seedAmt reserve r).1.qHigh =
      (seedRound b seedAmt reserve r).1.qLow := by
  rcases seedRound_cases b seedAmt reserve r with hc | ⟨_, _, hc⟩ <;>
    rw [hc] <;> simp [h]

/-- Seeding leaves the resolution fields of the round untouched. -/
theorem seedRound_preserves_resolution (b seedAmt reserve : Nat) (r : Round) :
    (seedRound b seedAmt reserve r).1.resolved = r.resolved ∧
    (seedRound b seedAmt reserve r).1.highVolWon = r.highVolWon ∧
    (seedRound b seedAmt reserve r).1.resolvedVol = r.resolvedVol ∧
    (seedRound b seedAmt reserve r).1.snapshotVol = r.snapshotVol := by
  rcases seedRound_cases b seedAmt reserve r with hc | ⟨_, _, hc⟩ <;>
    rw [hc] <;> exact ⟨rfl, rfl, rfl, rfl⟩

/-- The seed fields of a seeded round never exceed the totals, provided they
did not before; when the (wrapped) seed increment is non-negative the
quantities only grow. -/
theorem seedRound_inv (b seedAmt reserve : Nat) (r : Round)
    (h1 : r.seedHighTokens ≤ r.totalHighTokens)
    (h2 : r.seedLowTokens ≤ r.totalLowTokens)
    (h3 : r.seedCollateral ≤ r.totalCollateral) :
    ((seedRound b seedAmt reserve r).1.seedHighTokens ≤
        (seedRound b seedAmt reserve r).1.totalHighTokens ∧
      (seedRound b seedAmt reserve r).1.seedLowTokens ≤
        (seedRound b seedAmt reserve r).1.totalLowTokens ∧
      (seedRound b seedAmt reserve r).1.seedCollateral ≤
        (seedRound b seedAmt reserve r).1.totalCollateral) ∧
    (0 ≤ toInt256 seedAmt →
      r.qHigh ≤ (seedRound b seedAmt reserve r).1.qHigh ∧
      r.qLow ≤ (seedRound b seedAmt reserve r).1.qLow) := by
  rcases seedRound_cases b seedAmt reserve r with hc | ⟨_, _, hc⟩ <;> rw [hc]
  · exact ⟨⟨h1, h2, h3⟩, fun _ => ⟨le_refl _, le_refl _⟩⟩
  · refine ⟨⟨by simp, by simp, by simp⟩, fun hg => ⟨?_, ?_⟩⟩ <;>
      exact le_add_of_nonneg_right hg

/-- With equal quantities on both sides, both prices are exactly `S/2`. -/
theorem price_symmetric_half (b : Nat) (q : Int) :
    priceHigh b q q = SCALE / 2 ∧ priceLow b q q = SCALE / 2 := by
  have h1 := one_le_expScaled b q
  unfold priceHigh priceLow
  have hkey : expScaled b q * SCALE =
      (expScaled b q + expScaled b q) * (SCALE / 2) := by
    have hS : SCALE = 2 * (SCALE / 2) := by decide
    calc expScaled b q * SCALE = expScaled b q * (2 * (SCALE / 2)) := by
          rw [← hS]
    _ = (expScaled b q + expScaled b q) * (SCALE / 2) := by ring
  rw [hkey, Nat.mul_div_cancel_left _ (by omega)]
  exact ⟨rfl, rfl⟩

/-- C8: after a successful `openNewRound` or `startNewRound`, the freshly
created round is symmetric — seeding from `(0, 0)` buys the same seed amount
on both sides (or is skipped) — and, before any asymmetric trade, the Up and
Down prices of the new round are both exactly `S/2`. -/
theorem new_round_prices_half (s s' : MarketState) (caller now vol : Nat)
    (h : openNewRound caller now vol s = .ok s' ∨
         startNewRound now vol s = .ok s') :
    (s'.rounds s'.currentRoundId).qHigh = (s'.rounds s'.currentRoundId).qLow ∧
    priceHigh s'.b (s'.rounds s'.currentRoundId).qHigh
      (s'.rounds s'.currentRoundId).qLow = SCALE / 2 ∧
    priceLow s'.b (s'.rounds s'.currentRoundId).qHigh
      (s'.rounds s'.currentRoundId).qLow = SCALE / 2 := by
  have hs' : s' = createRound s now vol := by
    rcases h with h | h
    · unfold openNewRound at h
      split at h
      · cases h
      · exact (Except.ok.inj h).symm
    · unfold startNewRound at h
      split at h
      · cases h
      · exact (Except.ok.inj h).symm
  subst hs'
  have hcur : (createRound s now vol).currentRoundId = s.currentRoundId + 1 :=
    rfl
  have hround : (createRound s now vol).rounds (s.currentRoundId + 1) =
      (seedRound s.b s.seedAmount s.seedReserve (freshRound s now vol)).1 := by
    simp only [createRound, if_pos]
  have hsymm := seedRound_preserves_symmetry s.b s.seedAmount s.seedReserve
    (freshRound s now vol) rfl
  rw [hcur, hround]
  refine ⟨hsymm, ?_, ?_⟩
  · rw [hsymm]; exact (price_symmetric_half _ _).1
  · rw [hsymm]; exact (price_symmetric_half _ _).2

/-! ## Monotonicity of the scaled exponential (the true part of the LMSR
monotonicity property) -/

/-- Truncating division by a positive denominator preserves order and
non-negativity on non-negative numerators. -/
theorem tdiv_mono_nonneg {a a' d : Int} (ha : 0 ≤ a) (haa : a ≤ a')
    (hd : 0 < d) : 0 ≤ a.tdiv d ∧ a.tdiv d ≤ a'.tdiv d := by
  rw [Int.tdiv_eq_ediv ha (le_of_lt hd),
    Int.tdiv_eq_ediv (le_trans ha haa) (le_of_lt hd)]
  exact ⟨Int.ediv_nonneg ha (le_of_lt hd), Int.ediv_le_ediv hd haa⟩

/-- The fixed-point Taylor sum of the exponential is non-negative and
monotone on non-negative arguments. -/
theorem expTaylor_mono {x x' : Int} (h0 : 0 ≤ x) (h : x ≤ x') :
    SI ≤ expTaylor x ∧ expTaylor x ≤ expTaylor x' := by
  have h0' : 0 ≤ x' := le_trans h0 h
  have hmul : x * x ≤ x' * x' := mul_le_mul h h h0 h0'
  have h2 := tdiv_mono_nonneg (mul_nonneg h0 h0) hmul (by decide : (0:Int) < 2 * SI)
  have h3 := tdiv_mono_nonneg (mul_nonneg h2.1 h0)
    (mul_le_mul h2.2 h (by exact h0) (le_trans h2.1 h2.2))
    (by decide : (0:Int) < 3 * SI)
  have h4 := tdiv_mono_nonneg (mul_nonneg h3.1 h0)
    (mul_le_mul h3.2 h (by exact h0) (le_trans h3.1 h3.2))
    (by decide : (0:Int) < 4 * SI)
  have h5 := tdiv_mono_nonneg (mul_nonneg h4.1 h0)
    (mul_le_mul h4.2 h (by exact h0) (le_trans h4.1 h4.2))
    (by decide : (0:Int) < 5 * SI)
  have h6 := tdiv_mono_nonneg (mul_nonneg h5.1 h0)
    (mul_le_mul h5.2 h (by exact h0) (le_trans h5.1 h5.2))
    (by decide : (0:Int) < 6 * SI)
  simp only [expTaylor]
  constructor
  · have := h2.1; have := h3.1; have := h4.1; have := h5.1; have := h6.1
    omega
  · have := h2.2; have := h3.2; have := h4.2; have := h5.2; have := h6.2
    omega

/-- The scaled exponential is monotone in the quantity on the buy-only
domain `0 ≤ q`. -/
theorem expScaled_mono (b : Nat) {q q' : Int} (h0 : 0 ≤ q) (h : q ≤ q') :
    expScaled b q ≤ expScaled b q' := by
  have hSI : (0 : Int) ≤ SI := by decide
  have hSIpos : (0 : Int) < SI := by decide
  have hb0 : (0 : Int) ≤ Int.ofNat b := Int.natCast_nonneg b
  have he : 0 ≤ Int.tdiv (q * SI) (Int.ofNat b) ∧
      Int.tdiv (q * SI) (Int.ofNat b) ≤ Int.tdiv (q' * SI) (Int.ofNat b) := by
    rcases Nat.eq_zero_or_pos b with hb | hb
    · subst hb
      simp [Int.tdiv_zero]
    · exact tdiv_mono_nonneg (mul_nonneg h0 hSI)
        (mul_le_mul_of_nonneg_right h hSI) (Int.ofNat_pos.mpr hb)
  unfold expScaled
  set e := Int.tdiv (q * SI) (Int.ofNat b) with hedef
  set e' := Int.tdiv (q' * SI) (Int.ofNat b) with hedef'
  have hx0 : 0 ≤ (if e > 20 * SI then 20 * SI else e) := by
    split <;> [decide; exact he.1]
  have hx0' : 0 ≤ (if e' > 20 * SI then 20 * SI else e') := by
    split
    · decide
    · exact le_trans he.1 he.2
  have hxx : (if e > 20 * SI then 20 * SI else e) ≤
      (if e' > 20 * SI then 20 * SI else e') := by
    split <;> split
    · exact le_refl _
    · next h1 h2 => omega
    · next h1 h2 => omega
    · exact he.2
  have ht := expTaylor_mono hx0 hxx
  have ht1 : SI ≤ expTaylor (if e > 20 * SI then 20 * SI else e) := ht.1
  have ht2 : SI ≤ expTaylor (if e' > 20 * SI then 20 * SI else e') :=
    le_trans ht.1 ht.2
  have hc1 : ¬((if e > 20 * SI then 20 * SI else e) < -(20 * SI)) := by omega
  have hc2 : ¬((if e' > 20 * SI then 20 * SI else e') < -(20 * SI)) := by
    omega
  have hp1 : expTaylor (if e > 20 * SI then 20 * SI else e) > 0 := by omega
  have hp2 : expTaylor (if e' > 20 * SI then 20 * SI else e') > 0 := by omega
  rw [if_neg hc1, if_pos hp1, if_neg hc2, if_pos hp2]
  omega

/-- C4 (amended): `expScaled` is monotone in each non-negative quantity (so
the exponential layer of the LMSR cost cannot shrink on a buy), and the
pre-fee charge of a purchase is the cost delta *clamped at zero* —
`rawCharge = max(cost(after) − cost(before), 0)` — hence never negative.
The unclamped fixed-point cost delta itself can be negative by a rounding
unit (see `cost_not_monotone_on_reachable_quantities`). -/
theorem rawCharge_clamped_nonneg (b : Nat) (qH qL : Int) (amount : Nat)
    (hH : 0 ≤ qH) (hL : 0 ≤ qL) :
    expScaled b qH ≤ expScaled b (qH + (amount : Nat)) ∧
    expScaled b qL ≤ expScaled b (qL + (amount : Nat)) ∧
    (rawCharge b qH qL (qH + (amount : Nat)) qL : Int) =
      max ((cost b (qH + (amount : Nat)) qL : Int) - (cost b qH qL : Int)) 0 ∧
    (rawCharge b qH qL qH (qL + (amount : Nat)) : Int) =
      max ((cost b qH (qL + (amount : Nat)) : Int) - (cost b qH qL : Int)) 0 ∧
    0 ≤ (rawCharge b qH qL (qH + (amount : Nat)) qL : Int) ∧
    0 ≤ (rawCharge b qH qL qH (qL + (amount : Nat)) : Int) := by
  have hle : qH ≤ qH + (amount : Nat) := by
    have : (0 : Int) ≤ (amount : Nat) := Int.natCast_nonneg amount
    omega
  have hle' : qL ≤ qL + (amount : Nat) := by
    have : (0 : Int) ≤ (amount : Nat) := Int.natCast_nonneg amount
    omega
  refine ⟨expScaled_mono b hH hle, expScaled_mono b hL hle', ?_, ?_,
    Int.natCast_nonneg _, Int.natCast_nonneg _⟩
  · unfold rawCharge
    split
    · next hlt => omega
    · next hlt => omega
  · unfold rawCharge
    split
    · next hlt => omega
    · next hlt => omega

/-- Witness for `rawCharge_clamped_nonneg` at `b = 10^18`,
`(qHigh, qLow) = (0, 0)`, `amount = 10^18`. -/
theorem rawCharge_clamped_nonneg_witness :
    expScaled 1000000000000000000 0 ≤
      expScaled 1000000000000000000 (0 + (1000000000000000000 : Nat)) ∧
    expScaled 1000000000000000000 0 ≤
      expScaled 1000000000000000000 (0 + (1000000000000000000 : Nat)) ∧
    (rawCharge 1000000000000000000 0 0 (0 + (1000000000000000000 : Nat)) 0 :
        Int) =
      max ((cost 1000000000000000000 (0 + (1000000000000000000 : Nat)) 0 :
        Int) - (cost 1000000000000000000 0 0 : Int)) 0 ∧
    (rawCharge 1000000000000000000 0 0 0 (0 + (1000000000000000000 : Nat)) :
        Int) =
      max ((cost 1000000000000000000 0 (0 + (1000000000000000000 : Nat)) :
        Int) - (cost 1000000000000000000 0 0 : Int)) 0 ∧
    0 ≤ (rawCharge 1000000000000000000 0 0
        (0 + (1000000000000000000 : Nat)) 0 : Int) ∧
    0 ≤ (rawCharge 1000000000000000000 0 0 0
        (0 + (1000000000000000000 : Nat)) : Int) :=
  rawCharge_clamped_nonneg 1000000000000000000 0 0 1000000000000000000
    (by decide) (by decide)

/-! ## A concrete execution used by several counterexamples

Deploy with `b = 10^18`, set the seed amount to `0`, open round 1, and buy
first Low then High quantities chosen to land on a rounding dip of the
fixed-point logarithm. -/

/-- Run a state-returning operation, falling back to a default on revert. -/
def okD (x : Except Err MarketState) (d : MarketState) : MarketState :=
  match x with
  | .ok t => t
  | .error _ => d

/-- Deployment by operator `7` with `b = 10^18`. -/
def exState0 : MarketState := initState 7 1000000000000000000

/-- After `setSeedAmount(0)` by the operator. -/
def exState1 : MarketState := okD (setSeedAmount 7 0 exState0) exState0

/-- After `openNewRound()` by the operator at time `0` with oracle vol `5`:
round 1 is open and unresolved. -/
def exState2 : MarketState := okD (openNewRound 7 0 5 exState1) exState1

/-- After buying `783194998179913985` Low tokens of round 1 (payment
`10^18` wei, entropy `0`). -/
def exState3 : MarketState :=
  okD (step (.buyOutcome 8 0 1 false 783194998179913985
    1000000000000000000 0) exState2) exState2

/-- After additionally buying `707106789` High tokens of round 1. -/
def exState4 : MarketState :=
  okD (step (.buyOutcome 8 0 1 true 707106789
    1000000000000000000 0) exState3) exState3

/-- The states of the concrete execution are reachable. -/
theorem exState4_reachable :
    Reachable exState2 ∧ Reachable exState4 := by
  have h0 : Reachable exState0 := .init 7 1000000000000000000
  have h1 : Reachable exState1 := .step (.setSeedAmount 7 0) h0 rfl
  have h2 : Reachable exState2 := .step (.openNewRound 7 0 5) h1 rfl
  have h3 : Reachable exState3 :=
    .step (.buyOutcome 8 0 1 false 783194998179913985
      1000000000000000000 0) h2 rfl
  have h4 : Reachable exState4 :=
    .step (.buyOutcome 8 0 1 true 707106789
      1000000000000000000 0) h3 rfl
  exact ⟨h2, h4⟩

/-- Witness for `new_round_prices_half`: the round opened by
`openNewRound(7, 0, 5)` from `exState1` prices both sides at exactly
`S/2`. -/
theorem new_round_prices_half_witness :
    (exState2.rounds exState2.currentRoundId).qHigh =
      (exState2.rounds exState2.currentRoundId).qLow ∧
    priceHigh exState2.b (exState2.rounds exState2.currentRoundId).qHigh
      (exState2.rounds exState2.currentRoundId).qLow = SCALE / 2 ∧
    priceLow exState2.b (exState2.rounds exState2.currentRoundId).qHigh
      (exState2.rounds exState2.currentRoundId).qLow = SCALE / 2 :=
  new_round_prices_half exState1 exState2 7 0 5 (Or.inl rfl)

/-- C4 counterexample: at the reachable quantities
`(qHigh, qLow) = (707106789, 783194998179913985)` of round 1 of `exState4`
(with `b = 10^18`), buying one more High token strictly *decreases* the
fixed-point LMSR cost: the cost function is not monotonically non-decreasing
in its quantity arguments on reachable buy-only transitions. -/
theorem cost_not_monotone_on_reachable_quantities :
    Reachable exState4 ∧
    exState4.b = 1000000000000000000 ∧
    (exState4.rounds 1).qHigh = 707106789 ∧
    (exState4.rounds 1).qLow = 783194998179913985 ∧
    cost 1000000000000000000 (707106789 + 1) 783194998179913985 <
      cost 1000000000000000000 707106789 783194998179913985 :=
  ⟨exState4_reachable.2, by decide, by decide, by decide, by decide⟩

/-- C2 counterexample: in the reachable state `exState2` the most recently
opened round (round 1) exists and is unresolved, yet the operator-restricted
`openNewRound` succeeds anyway and opens round 2 — it does not check the
previous round. -/
theorem openNewRound_ignores_unresolved_round :
    Reachable exState2 ∧
    exState2.currentRoundId = 1 ∧
    (exState2.rounds 1).snapshotVol ≠ 0 ∧
    (exState2.rounds 1).resolved = false ∧
    openNewRound 7 100 6 exState2 =
      .ok (createRound exState2 100 6) ∧
    (createRound exState2 100 6).currentRoundId = 2 :=
  ⟨exState4_reachable.1, by decide, by decide, by decide, rfl, by decide⟩

/-- C2 (amended): the open-to-anyone `startNewRound` *is* restricted: while
the most recently opened round exists and is unresolved it fails with
`CurrentRoundNotResolved` (leaving the state unchanged, by the all-or-nothing
transaction model). -/
theorem startNewRound_requires_resolved (s : MarketState) (now vol : Nat)
    (h1 : 0 < s.currentRoundId)
    (h2 : (s.rounds s.currentRoundId).resolved = false) :
    startNewRound now vol s = .error .CurrentRoundNotResolved := by
  unfold startNewRound
  rw [if_pos ⟨h1, h2⟩]

/-- Witness for `startNewRound_requires_resolved` at the reachable state
`exState2`. -/
theorem startNewRound_requires_resolved_witness :
    startNewRound 50 9 exState2 = .error .CurrentRoundNotResolved :=
  startNewRound_requires_resolved exState2 50 9 (by decide) (by decide)

/-! ## Resolution (C6) -/

/-- C6 (amended): `resolveRound` succeeds exactly when the round exists
(nonzero snapshot), is unresolved, and `now` has reached `resolutionTime`;
on success it sets `highVolWon` to whether the fresh metric strictly exceeds
the snapshot (ties resolve Down), marks the round resolved and records the
metric; a nonexistent round fails with `InvalidRound`, an already-resolved
round with `RoundAlreadyResolved` (so no round resolves twice), a too-early
call with `TooEarlyToResolve`; every failure leaves the state unchanged. -/
theorem resolveRound_spec (s : MarketState) (now roundId vol : Nat) :
    ((s.rounds roundId).snapshotVol ≠ 0 →
      (s.rounds roundId).resolved = false →
      (s.rounds roundId).resolutionTime ≤ now →
      resolveRound now roundId vol s =
        .ok { s with rounds := fun id =>
          if id = roundId then
            { s.rounds roundId with
                highVolWon := decide ((s.rounds roundId).snapshotVol < vol)
                resolved := true
                resolvedVol := vol }
          else s.rounds id }) ∧
    ((s.rounds roundId).snapshotVol = 0 →
      resolveRound now roundId vol s = .error .InvalidRound) ∧
    ((s.rounds roundId).snapshotVol ≠ 0 →
      (s.rounds roundId).resolved = true →
      resolveRound now roundId vol s = .error .RoundAlreadyResolved) ∧
    ((s.rounds roundId).snapshotVol ≠ 0 →
      (s.rounds roundId).resolved = false →
      now < (s.rounds roundId).resolutionTime →
      resolveRound now roundId vol s = .error .TooEarlyToResolve) := by
  refine ⟨?_, ?_, ?_, ?_⟩
  · intro h1 h2 h3
    unfold resolveRound
    rw [if_neg h1, if_neg (by rw [h2]; exact Bool.false_ne_true), if_neg (by omega)]
  · intro h1
    unfold resolveRound
    rw [if_pos h1]
  · intro h1 h2
    unfold resolveRound
    rw [if_neg h1, if_pos (by rw [h2])]
  · intro h1 h2 h3
    unfold resolveRound
    rw [if_neg h1, if_neg (by rw [h2]; exact Bool.false_ne_true), if_pos h3]

/-- Witness for `resolveRound_spec`: resolving round 1 of `exState2` too
early fails with `TooEarlyToResolve`. -/
theorem resolveRound_spec_witness :
    resolveRound 100 1 7 exState2 = .error .TooEarlyToResolve :=
  (resolveRound_spec exState2 100 1 7).2.2.2 (by decide) (by decide)
    (by decide)

/-- C6 counterexample: resolving a round that was never opened fails with
`InvalidRound`, which is neither of the two errors the claim allows
(`TooEarlyToResolve`, `RoundAlreadyResolved`). -/
theorem resolveRound_nonexistent_error :
    resolveRound 0 1 5 (initState 7 1) = .error .InvalidRound ∧
    Err.InvalidRound ≠ Err.TooEarlyToResolve ∧
    Err.InvalidRound ≠ Err.RoundAlreadyResolved :=
  ⟨rfl, by decide, by decide⟩

/-! ## Per-round invariants and their preservation (C5) -/

/-- The per-round state invariants of the data model: seed never exceeds the
corresponding total. -/
def roundInv (r : Round) : Prop :=
  r.seedHighTokens ≤ r.totalHighTokens ∧
  r.seedLowTokens ≤ r.totalLowTokens ∧
  r.seedCollateral ≤ r.totalCollateral

/-- Global invariant: every round satisfies `roundInv`, and ids beyond the
current one are still untouched (the mapping default). -/
def stateInv (s : MarketState) : Prop :=
  (∀ id, roundInv (s.rounds id)) ∧
  (∀ id, s.currentRoundId < id → s.rounds id = defaultRound)

/-- Quantity part of the per-round relational guarantees of one operation:
the LMSR quantities never decrease. -/
def roundQStep (r r' : Round) : Prop :=
  r.qHigh ≤ r'.qHigh ∧ r.qLow ≤ r'.qLow

/-- Resolution part of the per-round relational guarantees of one
operation: a resolved round keeps its flag, outcome and resolved metric. -/
def roundResStep (r r' : Round) : Prop :=
  r.resolved = true →
    r'.resolved = true ∧ r'.highVolWon = r.highVolWon ∧
    r'.resolvedVol = r.resolvedVol

theorem roundQStep_refl (r : Round) : roundQStep r r :=
  ⟨le_refl _, le_refl _⟩

theorem roundResStep_refl (r : Round) : roundResStep r r :=
  fun h => ⟨h, rfl, rfl⟩

/-- The side condition under which an operation's quantity increments are
non-negative: a buy whose amount stays below `2^255`, a round opening whose
configured seed amount stays below `2^255` (beyond that, the contract's
unchecked `int256(...)` conversion wraps the increment negative), and any
other operation unconditionally. -/
def opQGuard (s : MarketState) : Op → Prop
  | .openNewRound _ _ _ => 0 ≤ toInt256 s.seedAmount
  | .startNewRound _ _ => 0 ≤ toInt256 s.seedAmount
  | .buyOutcome _ _ _ _ amount _ _ => 0 ≤ toInt256 amount
  | _ => True

theorem roundInv_default : roundInv defaultRound :=
  ⟨Nat.le_refl 0, Nat.le_refl 0, Nat.le_refl 0⟩

/-- Opening a round (the shared tail of `openNewRound`/`startNewRound`)
preserves the global invariant and the resolution guarantees; when the
wrapped seed increment is non-negative it also preserves the quantity
guarantees. -/
theorem createRound_preserves (s : MarketState) (now vol : Nat)
    (hInv : stateInv s) :
    stateInv (createRound s now vol) ∧
    (∀ id, roundResStep (s.rounds id) ((createRound s now vol).rounds id)) ∧
    (0 ≤ toInt256 s.seedAmount →
      ∀ id, roundQStep (s.rounds id) ((createRound s now vol).rounds id)) := by
  obtain ⟨hri, hdef⟩ := hInv
  have hfresh : roundInv (freshRound s now vol) :=
    ⟨Nat.le_refl 0, Nat.le_refl 0, Nat.le_refl 0⟩
  have hseed := seedRound_inv s.b s.seedAmount s.seedReserve
    (freshRound s now vol) hfresh.1 hfresh.2.1 hfresh.2.2
  refine ⟨⟨?_, ?_⟩, ?_, ?_⟩
  · intro id
    show roundInv (if id = s.currentRoundId + 1 then _ else s.rounds id)
    split
    · exact hseed.1
    · exact hri id
  · intro id hid
    show (if id = s.currentRoundId + 1 then _ else s.rounds id) = defaultRound
    have hne : id ≠ s.currentRoundId + 1 := by
      simp only [createRound] at hid
      omega
    rw [if_neg hne]
    apply hdef
    simp only [createRound] at hid
    omega
  · intro id
    show roundResStep (s.rounds id)
      (if id = s.currentRoundId + 1 then _ else s.rounds id)
    split
    · next heq =>
      have hold : s.rounds id = defaultRound := hdef id (by omega)
      rw [hold]
      intro hres
      simp [defaultRound] at hres
    · exact roundResStep_refl _
  · intro hg id
    show roundQStep (s.rounds id)
      (if id = s.currentRoundId + 1 then _ else s.rounds id)
    split
    · next heq =>
      have hold : s.rounds id = defaultRound := hdef id (by omega)
      rw [hold]
      constructor
      · exact le_trans (by simp [defaultRound, freshRound]) (hseed.2 hg).1
      · exact le_trans (by simp [defaultRound, freshRound]) (hseed.2 hg).2
    · exact roundQStep_refl _

/-- A successful buy preserves the global invariant and the resolution
guarantees (totals only grow, seeds are untouched, only an unresolved round
can be traded); when the wrapped amount is non-negative the quantities only
grow. -/
theorem buyOutcome_preserves (caller now roundId : Nat) (isHigh : Bool)
    (amount value entropy : Nat) (s : MarketState) (out : MarketState × Nat)
    (hInv : stateInv s)
    (h : buyOutcome caller now roundId isHigh amount value entropy s =
      .ok out) :
    stateInv out.1 ∧
    (∀ id, roundResStep (s.rounds id) (out.1.rounds id)) ∧
    (0 ≤ toInt256 amount →
      ∀ id, roundQStep (s.rounds id) (out.1.rounds id)) := by
  obtain ⟨hri, hdef⟩ := hInv
  cases isHigh <;>
    [(simp only [buyOutcome, Bool.false_eq_true, if_false] at h);
     (simp only [buyOutcome, if_true] at h)] <;>
  · split at h
    · simp at h
    next hsnap =>
      split at h
      · simp at h
      next hres =>
        split at h
        · simp at h
        next hend =>
          split at h
          · simp at h
          next hval =>
            injection h with h
            subst h
            refine ⟨⟨?_, ?_⟩, ?_, ?_⟩
            · intro id
              show roundInv (if id = roundId then _ else s.rounds id)
              split
              · next heq =>
                subst heq
                obtain ⟨b1, b2, b3⟩ := hri id
                refine ⟨?_, ?_, ?_⟩ <;>
                  first
                  | exact b1
                  | exact b2
                  | exact le_trans b1 (Nat.le_add_right _ _)
                  | exact le_trans b2 (Nat.le_add_right _ _)
                  | exact le_trans b3 (Nat.le_add_right _ _)
              · exact hri id
            · intro id hid
              show (if id = roundId then _ else s.rounds id) = defaultRound
              split
              · next heq =>
                exfalso
                subst heq
                rw [hdef id hid] at hsnap
                exact hsnap rfl
              · exact hdef id hid
            · intro id
              show roundResStep (s.rounds id) (if id = roundId then _ else _)
              split
              · next heq =>
                subst heq
                exact fun hr => absurd hr hres
              · exact roundResStep_refl _
            · intro hg id
              show roundQStep (s.rounds id) (if id = roundId then _ else _)
              split
              · next heq =>
                subst heq
                constructor <;>
                  first
                  | exact le_refl _
                  | exact le_add_of_nonneg_right hg
              · exact roundQStep_refl _

/-- A successful resolution preserves the global invariant and both
per-round guarantees (only an unresolved round resolves, only its
resolution fields change, quantities are untouched). -/
theorem resolveRound_preserves (now roundId vol : Nat) (s s2 : MarketState)
    (hInv : stateInv s) (h : resolveRound now roundId vol s = .ok s2) :
    stateInv s2 ∧ (∀ id, roundResStep (s.rounds id) (s2.rounds id)) ∧
    (∀ id, roundQStep (s.rounds id) (s2.rounds id)) := by
  obtain ⟨hri, hdef⟩ := hInv
  unfold resolveRound at h
  simp only [] at h
  split at h
  · simp at h
  next hsnap =>
    split at h
    · simp at h
    next hres =>
      split at h
      · simp at h
      next htime =>
        injection h with h
        subst h
        refine ⟨⟨?_, ?_⟩, ?_, ?_⟩
        · intro id
          show roundInv (if id = roundId then _ else s.rounds id)
          split
          · next heq =>
            subst heq
            exact hri id
          · exact hri id
        · intro id hid
          show (if id = roundId then _ else s.rounds id) = defaultRound
          split
          · next heq =>
            exfalso
            subst heq
            rw [hdef id hid] at hsnap
            exact hsnap rfl
          · exact hdef id hid
        · intro id
          show roundResStep (s.rounds id) (if id = roundId then _ else _)
          split
          · next heq =>
            subst heq
            exact fun hr => absurd hr hres
          · exact roundResStep_refl _
        · intro id
          show roundQStep (s.rounds id) (if id = roundId then _ else _)
          split
          · next heq =>
            subst heq
            exact ⟨le_refl _, le_refl _⟩
          · exact roundQStep_refl _

/-- A successful claim preserves the global invariant and both per-round
guarantees: it can only zero `seedCollateral`, never touching the totals,
the quantities or the resolution fields. -/
theorem claimPayout_preserves (caller roundId : Nat) (s : MarketState)
    (out : MarketState × Nat) (hInv : stateInv s)
    (h : claimPayout caller roundId s = .ok out) :
    stateInv out.1 ∧ (∀ id, roundResStep (s.rounds id) (out.1.rounds id)) ∧
    (∀ id, roundQStep (s.rounds id) (out.1.rounds id)) := by
  obtain ⟨hri, hdef⟩ := hInv
  simp only [claimPayout] at h
  split at h
  · simp at h
  next hres =>
    split at h
    all_goals
      split at h
      · simp at h
      next htok =>
        split at h
        · simp at h
        next hwin =>
          injection h with h
          subst h
          refine ⟨⟨?_, ?_⟩, ?_, ?_⟩
          · intro id
            show roundInv (if id = roundId then _ else s.rounds id)
            split
            · next heq =>
              subst heq
              obtain ⟨b1, b2, b3⟩ := hri id
              refine ⟨b1, b2, ?_⟩
              show (if 0 < (s.rounds id).seedCollateral then 0
                else (s.rounds id).seedCollateral) ≤
                (s.rounds id).totalCollateral
              split <;> omega
            · exact hri id
          · intro id hid
            show (if id = roundId then _ else s.rounds id) = defaultRound
            split
            · next heq =>
              exfalso
              subst heq
              rw [hdef id hid] at hres
              exact hres rfl
            · exact hdef id hid
          · intro id
            show roundResStep (s.rounds id) (if id = roundId then _ else _)
            split
            · next heq =>
              subst heq
              exact fun hr => ⟨hr, rfl, rfl⟩
            · exact roundResStep_refl _
          · intro id
            show roundQStep (s.rounds id) (if id = roundId then _ else _)
            split
            · next heq =>
              subst heq
              exact ⟨le_refl _, le_refl _⟩
            · exact roundQStep_refl _

/-- Every successful public operation preserves the global invariant and
the resolution guarantees; under `opQGuard` (non-wrapping increments) it
also preserves the quantity guarantees. -/
theorem step_preserves (op : Op) (s s2 : MarketState) (hInv : stateInv s)
    (h : step op s = .ok s2) :
    stateInv s2 ∧ (∀ id, roundResStep (s.rounds id) (s2.rounds id)) ∧
    (opQGuard s op → ∀ id, roundQStep (s.rounds id) (s2.rounds id)) := by
  cases op with
  | openNewRound caller now vol =>
    simp only [step, openNewRound] at h
    split at h <;>
      first
      | (injection h; done)
      | (injection h with h; subst h;
         exact createRound_preserves s now vol hInv)
  | startNewRound now vol =>
    simp only [step, startNewRound] at h
    split at h <;>
      first
      | (injection h; done)
      | (injection h with h; subst h;
         exact createRound_preserves s now vol hInv)
  | buyOutcome caller now roundId isHigh amount value entropy =>
    simp only [step] at h
    cases hb : buyOutcome caller now roundId isHigh amount value entropy s with
    | error e => rw [hb] at h; simp [Except.map] at h
    | ok out =>
      rw [hb] at h
      simp only [Except.map] at h
      injection h with h
      subst h
      exact buyOutcome_preserves caller now roundId isHigh amount value
        entropy s out hInv hb
  | resolveRound now roundId vol =>
    have hp := resolveRound_preserves now roundId vol s s2 hInv h
    exact ⟨hp.1, hp.2.1, fun _ => hp.2.2⟩
  | claimPayout caller roundId =>
    simp only [step] at h
    cases hb : claimPayout caller roundId s with
    | error e => rw [hb] at h; simp [Except.map] at h
    | ok out =>
      rw [hb] at h
      simp only [Except.map] at h
      injection h with h
      subst h
      have hp := claimPayout_preserves caller roundId s out hInv hb
      exact ⟨hp.1, hp.2.1, fun _ => hp.2.2⟩
  | setTradingDuration caller d =>
    simp only [step, setTradingDuration] at h
    split at h <;>
      first
      | (injection h; done)
      | (injection h with h; subst h;
         exact ⟨hInv, fun id => roundResStep_refl _,
           fun _ id => roundQStep_refl _⟩)
  | setResolutionDelay caller d =>
    simp only [step, setResolutionDelay] at h
    split at h <;>
      first
      | (injection h; done)
      | (injection h with h; subst h;
         exact ⟨hInv, fun id => roundResStep_refl _,
           fun _ id => roundQStep_refl _⟩)
  | setSeedAmount caller a =>
    simp only [step, setSeedAmount] at h
    split at h <;>
      first
      | (injection h; done)
      | (injection h with h; subst h;
         exact ⟨hInv, fun id => roundResStep_refl _,
           fun _ id => roundQStep_refl _⟩)
  | transferOperator caller newOp =>
    simp only [step, transferOperator] at h
    split at h <;>
      first
      | (injection h; done)
      | (injection h with h; subst h;
         exact ⟨hInv, fun id => roundResStep_refl _,
           fun _ id => roundQStep_refl _⟩)
  | depositSeedReserve caller value =>
    simp only [step, depositSeedReserve] at h
    split at h <;>
      first
      | (injection h; done)
      | (injection h with h; subst h;
         exact ⟨hInv, fun id => roundResStep_refl _,
           fun _ id => roundQStep_refl _⟩)
  | withdrawSeedReserve caller amount =>
    simp only [step, withdrawSeedReserve] at h
    repeat' split at h
    all_goals
      first
      | (injection h; done)
      | (injection h with h; subst h;
         exact ⟨hInv, fun id => roundResStep_refl _,
           fun _ id => roundQStep_refl _⟩)
  | receiveEth value =>
    simp only [step, receiveEth] at h
    injection h with h
    subst h
    exact ⟨hInv, fun id => roundResStep_refl _, fun _ id => roundQStep_refl _⟩

/-- Every reachable state satisfies the global invariant. -/
theorem reachable_stateInv {s : MarketState} (h : Reachable s) :
    stateInv s := by
  induction h with
  | init deployer b =>
    exact ⟨fun id => roundInv_default, fun id hid => rfl⟩
  | step op hr heq ih => exact (step_preserves op _ _ ih heq).1

/-- C5 (amended): every successful public operation, from any reachable
state, preserves the per-round invariants `totalHighTokens ≥
seedHighTokens`, `totalLowTokens ≥ seedLowTokens`, `totalCollateral ≥
seedCollateral`, and once a round is resolved its `resolved` flag, outcome
(`highVolWon`) and `resolvedVol` never change; the LMSR quantities `qHigh`
and `qLow` never decrease *provided* the operation's quantity increment does
not wrap in the unchecked `uint256 → int256` conversion (buy amount, resp.
configured seed amount, below `2^255`) — without that proviso a buy can
strictly decrease them (see `buy_with_wrapping_amount_decreases_qHigh`). -/
theorem public_ops_preserve_round_invariants (s s2 : MarketState) (op : Op)
    (hs : Reachable s) (h : step op s = .ok s2) :
    (∀ id, (s2.rounds id).seedHighTokens ≤ (s2.rounds id).totalHighTokens ∧
      (s2.rounds id).seedLowTokens ≤ (s2.rounds id).totalLowTokens ∧
      (s2.rounds id).seedCollateral ≤ (s2.rounds id).totalCollateral) ∧
    (∀ id, (s.rounds id).resolved = true →
      (s2.rounds id).resolved = true ∧
      (s2.rounds id).highVolWon = (s.rounds id).highVolWon ∧
      (s2.rounds id).resolvedVol = (s.rounds id).resolvedVol) ∧
    (opQGuard s op →
      ∀ id, (s.rounds id).qHigh ≤ (s2.rounds id).qHigh ∧
        (s.rounds id).qLow ≤ (s2.rounds id).qLow) := by
  have hp := step_preserves op s s2 (reachable_stateInv hs) h
  exact ⟨hp.1.1, fun id => hp.2.1 id, fun hg id => hp.2.2 hg id⟩

/-- The state after `transferOperator(9)` from `exState0`, used as the
witness step for the invariant-preservation theorem. -/
def exAdmin : MarketState := okD (step (.transferOperator 7 9) exState0) exState0

/-- Witness for `public_ops_preserve_round_invariants`: the deployment state
is reachable and `transferOperator` succeeds from it. -/
theorem public_ops_preserve_round_invariants_witness :
    (∀ id, (exAdmin.rounds id).seedHighTokens ≤
        (exAdmin.rounds id).totalHighTokens ∧
      (exAdmin.rounds id).seedLowTokens ≤
        (exAdmin.rounds id).totalLowTokens ∧
      (exAdmin.rounds id).seedCollateral ≤
        (exAdmin.rounds id).totalCollateral) ∧
    (∀ id, (exState0.rounds id).resolved = true →
      (exAdmin.rounds id).resolved = true ∧
      (exAdmin.rounds id).highVolWon = (exState0.rounds id).highVolWon ∧
      (exAdmin.rounds id).resolvedVol = (exState0.rounds id).resolvedVol) ∧
    (opQGuard exState0 (.transferOperator 7 9) →
      ∀ id, (exState0.rounds id).qHigh ≤ (exAdmin.rounds id).qHigh ∧
        (exState0.rounds id).qLow ≤ (exAdmin.rounds id).qLow) :=
  public_ops_preserve_round_invariants exState0 exAdmin
    (.transferOperator 7 9) (.init 7 1000000000000000000) rfl

set_option maxRecDepth 8192 in
/-- C5 counterexample: in the reachable state `exState2` (round 1 open at
quantities `(0, 0)`), buying `2^256 - 10^18` High tokens with zero payment
*succeeds* — the contract's unchecked `int256(amount)` conversion wraps the
increment to `-10^18` and the clamped cost delta is `0` — and strictly
decreases `qHigh` from `0` to `-10^18`, so the LMSR quantities are not
monotonically non-decreasing under every public operation. -/
theorem buy_with_wrapping_amount_decreases_qHigh :
    Reachable exState2 ∧
    (exState2.rounds 1).qHigh = 0 ∧
    toInt256
        115792089237316195423570985008687907853269984665640564039456584007913129639936 =
      -1000000000000000000 ∧
    (buyOutcome 8 0 1 true
        115792089237316195423570985008687907853269984665640564039456584007913129639936
        0 0 exState2).toOption.map (fun p => (p.1.rounds 1).qHigh) =
      some (-1000000000000000000) ∧
    (-1000000000000000000 : Int) < 0 :=
  ⟨exState4_reachable.1, by decide, by decide, by decide, by decide⟩

/-! ## Over-distribution of the user pool on claims (C1)

`claimPayout` computes `userPool = totalCollateral - seedCollateral` from
*current* storage, and the first claim zeroes `round.seedCollateral`
(crediting it to the reserve) without reducing `totalCollateral`.  Every
later claimant therefore divides a pool that has grown by the seed
collateral, so the payouts of a resolved round can sum to more than the
user pool as it stood at resolution — contradicting both the specification
and the contract's own documentation ("Winners split only USER-contributed
collateral (seed excluded)"). -/

/-- Run a pair-returning operation, keeping the state on success. -/
def okDP (x : Except Err (MarketState × Nat)) (d : MarketState) :
    MarketState :=
  match x with
  | .ok p => p.1
  | .error _ => d

/-- A resolved round of the shape produced by seed-then-trade: seed of 50 on
each side costing 50 collateral, two user winners holding one High token
each, 100 of user collateral; HIGH won. -/
def c1Round : Round :=
  { snapshotVol := 5, tradingEnd := 100, resolutionTime := 200
    totalCollateral := 150, totalHighTokens := 52, totalLowTokens := 50
    qHigh := 52, qLow := 50, resolved := true, highVolWon := true
    resolvedVol := 9, seedCollateral := 50, seedHighTokens := 50
    seedLowTokens := 50 }

/-- The market holding `c1Round` as resolved round 1, with accounts 10 and
11 each holding one winning High token; the contract balance equals the
round's collateral. -/
def c1State : MarketState :=
  { operator := 7, b := 1000000000000000000, currentRoundId := 1
    rounds := fun id => if id = 1 then c1Round else defaultRound
    highVolBalance := fun id a =>
      if id = 1 ∧ (a = 10 ∨ a = 11) then 1 else 0
    lowVolBalance := fun _ _ => 0
    tradingDuration := 3600, resolutionDelay := 86400
    seedAmount := 0, seedReserve := 0, balance := 150 }

/-- The state after account 10's claim against round 1. -/
def c1After : MarketState := okDP (claimPayout 10 1 c1State) c1State

/-- C1 fails on the code: from the resolved round `c1Round` with
`userPool = totalCollateral - seedCollateral = 100` at resolution, account
10 claims 50, after which `seedCollateral` is zeroed while
`totalCollateral` is not reduced, so account 11 claims
`1·150/2 = 75`; the two successful claims pay out 125 > 100, exceeding the
round's user pool (the excess being exactly spent seed collateral that the
reserve accounting still believes it owns). -/
theorem claims_exceed_user_pool :
    (c1State.rounds 1).totalCollateral - (c1State.rounds 1).seedCollateral
      = 100 ∧
    (claimPayout 10 1 c1State).toOption.map Prod.snd = some 50 ∧
    (c1After.rounds 1).seedCollateral = 0 ∧
    (c1After.rounds 1).totalCollateral = 150 ∧
    (claimPayout 11 1 c1After).toOption.map Prod.snd = some 75 ∧
    100 < 50 + 75 := by
  refine ⟨rfl, rfl, rfl, rfl, rfl, by decide⟩

end VolSwap
